import Mathlib

/-
Formal model of the turn-based strategy engine in
src/python-algo/algo_strategy.py.  Engine calls (attempt_spawn,
attempt_upgrade, attempt_remove) are modelled as an emitted action trace;
engine query results (can_spawn, attempt_spawn success) are supplied by a
boolean oracle consumed one value per query, indexed by query number.
-/

namespace Citadel

abbrev Loc := ℕ × ℕ

inductive UnitType
  | WALL | SUPPORT | TURRET | SCOUT | DEMOLISHER | INTERCEPTOR
deriving DecidableEq

inductive Action
  | spawn (ut : UnitType) (loc : Loc)
  | upgrade (loc : Loc)
  | remove (loc : Loc)
deriving DecidableEq

def actLoc : Action → Loc
  | .spawn _ l => l
  | .upgrade l => l
  | .remove l => l

def isRemoveAct : Action → Bool
  | .remove _ => true
  | _ => false

def isScoutSpawnAct : Action → Bool
  | .spawn .SCOUT _ => true
  | _ => false

/- Template location lists fixed in on_game_start. -/

def start_wall_locations : List Loc :=
  [(0,13), (27,13), (1,13), (26,13), (2,13), (25,13), (3,13), (24,13),
   (4,12), (23,12), (5,11), (22,11), (6,10), (21,10), (7,9), (20,9),
   (8,8), (19,8), (9,7), (18,7), (10,6), (17,6), (11,5), (16,5), (13,7), (14,7)]

def corner_walls : List Loc :=
  [(0,13), (27,13), (1,13), (26,13), (2,13), (25,13), (3,13), (24,13), (4,12), (23,12)]

def corner_turrets : List Loc := [(1,12), (26,12), (3,12), (24,12)]

def start_turret_locations : List Loc := [(1,12), (26,12), (3,12), (24,12), (13,6), (14,6)]

def second_turret_locations : List Loc := [(12,7), (15,7)]

def corner_attack_wall_locations : List Loc := [(12,5), (15,5)]

def interceptor_wall_locations : List Loc := [(7,7), (20,7)]

def midWallLocs : List Loc := [(13,8), (14,8), (13,7), (14,7)]

def supportSpawnLocs : List Loc := [(13,0), (14,0), (13,1), (14,1)]

/- Per-location loop bodies of repair_walls and repair: each iteration of a
Python for-loop makes exactly one boolean engine query (a can_spawn test or
an attempt_spawn result) and emits the corresponding attempt calls. -/

def wallSpawnUpgradeBody (b : Bool) (l : Loc) : List Action :=
  if b then [.spawn .WALL l, .upgrade l] else [.upgrade l]

def spawnElseUpgradeBody (ut : UnitType) (b : Bool) (l : Loc) : List Action :=
  if b then [.spawn ut l] else [.upgrade l]

def spawnOnlyBody (ut : UnitType) (b : Bool) (l : Loc) : List Action :=
  if b then [.spawn ut l] else []

def attemptThenBody (ut : UnitType) (b : Bool) (l : Loc) : List Action :=
  .spawn ut l :: (if b then [.spawn ut l] else [.upgrade l])

def runLoop (body : Bool → Loc → List Action) (resp : ℕ → Bool) :
    ℕ → List Loc → List Action × ℕ
  | n, [] => ([], n)
  | n, l :: ls =>
      let rest := runLoop body resp (n+1) ls
      (body (resp n) l ++ rest.1, rest.2)

/-- Model of AlgoStrategy.repair_walls: seven fixed-template loops, in
source order; consumes one oracle value per loop iteration. -/
def repair_walls (resp : ℕ → Bool) (n : ℕ) : List Action × ℕ :=
  let p1 := runLoop wallSpawnUpgradeBody resp n corner_walls
  let p2 := runLoop (spawnElseUpgradeBody .TURRET) resp p1.2 corner_turrets
  let p3 := runLoop (spawnOnlyBody .WALL) resp p2.2 start_wall_locations
  let p4 := runLoop wallSpawnUpgradeBody resp p3.2 midWallLocs
  let p5 := runLoop (spawnElseUpgradeBody .TURRET) resp p4.2 start_turret_locations
  let p6 := runLoop (attemptThenBody .SUPPORT) resp p5.2 supportSpawnLocs
  let p7 := runLoop (attemptThenBody .TURRET) resp p6.2 second_turret_locations
  (p1.1 ++ p2.1 ++ p3.1 ++ p4.1 ++ p5.1 ++ p6.1 ++ p7.1, p7.2)

def repairListA : List Loc :=
  [(0,13), (27,13), (26,13), (2,13), (25,13), (3,13), (24,13),
   (4,12), (23,12), (5,11), (22,11), (6,10), (21,10), (7,9), (20,9),
   (8,8), (19,8), (9,7), (18,7), (10,6), (17,6), (11,5), (16,5), (13,7), (14,7)]

def repairListB : List Loc :=
  [(0,13), (27,13), (1,13), (2,13), (25,13), (3,13), (24,13),
   (4,12), (23,12), (5,11), (22,11), (6,10), (21,10), (7,9), (20,9),
   (8,8), (19,8), (9,7), (18,7), (10,6), (17,6), (11,5), (16,5), (13,7), (14,7)]

/-- Model of AlgoStrategy.repair: dispatches on the stored branch value,
walls-only spawn-or-upgrade over one of two fixed lists. -/
def repair (rndm : Option ℕ) (resp : ℕ → Bool) (n : ℕ) : List Action × ℕ :=
  if rndm = some 1 then runLoop (spawnElseUpgradeBody .WALL) resp n repairListA
  else runLoop (spawnElseUpgradeBody .WALL) resp n repairListB

/-- Model of AlgoStrategy.build_defences: unconditional attempt calls over
the fixed template, in source order. -/
def build_defences : List Action :=
  (start_wall_locations.map (Action.spawn .WALL)) ++
  (start_turret_locations.map (Action.spawn .TURRET)) ++
  (corner_walls.map Action.upgrade) ++
  (corner_turrets.map Action.upgrade)

/-- Model of the mobile-unit spawn while-loops (corner_attack,
corner2_attack): while the mobility pool holds at least the unit cost,
spawn one unit and deduct the cost; returns the number of spawns issued.
The loop is entered only for positive cost (the termination precondition);
for nonpositive cost it stops at once. -/
def spawnLoop (cost : ℚ) (mp : ℚ) : ℕ :=
  if h : 0 < cost ∧ cost ≤ mp then spawnLoop cost (mp - cost) + 1 else 0
termination_by ⌊mp / cost⌋.toNat
decreasing_by
  have hc := h.1
  have hle := h.2
  have hne : cost ≠ 0 := ne_of_gt hc
  have h1 : (mp - cost) / cost = mp / cost - 1 := by
    rw [sub_div, div_self hne]
  have h3 : (1 : ℤ) ≤ ⌊mp / cost⌋ := by
    rw [Int.le_floor]
    push_cast
    exact (one_le_div hc).mpr hle
  have h2 : ⌊(mp - cost) / cost⌋ = ⌊mp / cost⌋ - 1 := by
    rw [h1]
    have h4 := Int.floor_sub_int (mp / cost) 1
    push_cast at h4
    exact h4
  rw [h2]
  omega

/-- Model of the stall_with_interceptors while-loop: while the mobility
pool holds at least the interceptor cost and the deploy list is non-empty,
spawn an interceptor at an oracle-chosen deploy location and deduct the
cost; pick models randint over the index range. -/
def stall_loop (cost : ℚ) (deploy : List Loc) (pick : ℕ → ℕ) (mp : ℚ) (n : ℕ) :
    List Action :=
  if h : 0 < cost ∧ cost ≤ mp ∧ deploy ≠ [] then
    Action.spawn .INTERCEPTOR (deploy.getD (pick n % deploy.length) (0,0)) ::
      stall_loop cost deploy pick (mp - cost) (n+1)
  else []
termination_by ⌊mp / cost⌋.toNat
decreasing_by
  have hc := h.1
  have hle := h.2.1
  have hne : cost ≠ 0 := ne_of_gt hc
  have h1 : (mp - cost) / cost = mp / cost - 1 := by
    rw [sub_div, div_self hne]
  have h3 : (1 : ℤ) ≤ ⌊mp / cost⌋ := by
    rw [Int.le_floor]
    push_cast
    exact (one_le_div hc).mpr hle
  have h2 : ⌊(mp - cost) / cost⌋ = ⌊mp / cost⌋ - 1 := by
    rw [h1]
    have h4 := Int.floor_sub_int (mp / cost) 1
    push_cast at h4
    exact h4
  rw [h2]
  omega

/-- Model of AlgoStrategy.corner_attack: fixed wall and lane actions, three
interceptors at the left staging cell, then the scout spawn loop at (22,8). -/
def corner_attack (mp cost : ℚ) : List Action :=
  [.spawn .WALL (3,13)] ++
  (corner_attack_wall_locations.map (Action.spawn .WALL)) ++
  (corner_attack_wall_locations.map Action.remove) ++
  [.spawn .INTERCEPTOR (4,9), .spawn .INTERCEPTOR (4,9), .spawn .INTERCEPTOR (4,9)] ++
  List.replicate (spawnLoop cost mp) (.spawn .SCOUT (22,8))

/-- Model of AlgoStrategy.corner2_attack: mirror routine on the right
corner, scouts exit at (5,8). -/
def corner2_attack (mp cost : ℚ) : List Action :=
  [.spawn .WALL (24,13)] ++
  (corner_attack_wall_locations.map (Action.spawn .WALL)) ++
  (corner_attack_wall_locations.map Action.remove) ++
  [.spawn .INTERCEPTOR (23,9), .spawn .INTERCEPTOR (23,9), .spawn .INTERCEPTOR (23,9)] ++
  List.replicate (spawnLoop cost mp) (.spawn .SCOUT (5,8))

/- Persistent per-match strategy state (AlgoStrategy instance variables). -/

structure AlgoState where
  wall_breaches : List Loc
  low_health_walls : List Loc
  wall_locations : List Loc
  scored_on_locations : List Loc
  rndm : Option ℕ
deriving DecidableEq

/-- State right after on_game_start: empty tracking lists, rndm unset. -/
def initState : AlgoState := ⟨[], [], [], [], none⟩

/-- Model of AlgoStrategy.spam_strategy.  The randint(1,2) roll of the even
branch is externalised as the oracle value r; resp answers the boolean
engine queries of repair_walls and repair; mp and cost feed the scout
spawn loops of the attack routines.  Returns the updated state and the
emitted action trace. -/
def spam_strategy (st : AlgoState) (turn : ℕ) (r : ℕ) (resp : ℕ → Bool)
    (mp cost : ℚ) : AlgoState × List Action :=
  let p1 : AlgoState × List Action :=
    if turn = 0 ∨ turn = 1 then
      (st, build_defences ++ List.replicate 5 (.spawn .SCOUT (16,2)))
    else (st, [])
  if 2 ≤ turn then
    if turn % 2 = 0 then
      let st2 := { p1.1 with rndm := some r }
      let rw := repair_walls resp 0
      let removes : List Action :=
        if r = 1 then [.remove (1,13), .remove (1,12)]
        else [.remove (26,13), .remove (26,12)]
      (st2, p1.2 ++ rw.1 ++ removes ++
        [.spawn .INTERCEPTOR (10,3), .spawn .INTERCEPTOR (17,3)])
    else
      let rp := repair p1.1.rndm resp 0
      let atk := if p1.1.rndm = some 1 then corner_attack mp cost
                 else corner2_attack mp cost
      (p1.1, p1.2 ++ rp.1 ++ atk)
  else p1

/-- Stationary unit as seen by contains_stationary_unit on the friendly
half: kind, owning player index, current health. -/
structure SUnit where
  unitType : UnitType
  playerIndex : ℕ
  health : ℚ
deriving DecidableEq

/-- Friendly-half board snapshot: the stationary unit at each cell, if any. -/
def BMap := Loc → Option SUnit

/-- Model of AlgoStrategy.get_wall_locations: scan x in 0..27, y in 0..13,
collect cells holding a self-owned wall. -/
def get_wall_locations (b : BMap) : List Loc :=
  ((List.range 28).map (fun x =>
    (List.range 14).filterMap (fun y =>
      match b (x, y) with
      | some u => if u.unitType = .WALL ∧ u.playerIndex = 0 then some (x, y) else none
      | none => none))).flatten

/-- Model of AlgoStrategy.find_low_health_walls: same scan, keeping walls
whose health ratio is below the threshold; maxHealth is the configured
wall maximum health. -/
def find_low_health_walls (b : BMap) (maxHealth : ℚ) (threshold : ℚ) : List Loc :=
  ((List.range 28).map (fun x =>
    (List.range 14).filterMap (fun y =>
      match b (x, y) with
      | some u =>
          if u.unitType = .WALL ∧ u.playerIndex = 0 ∧ u.health / maxHealth < threshold
          then some (x, y) else none
      | none => none))).flatten

/-- Model of AlgoStrategy.on_turn: refresh wall_locations and
low_health_walls from the snapshot (threshold 0.4), then run spam_strategy. -/
def on_turn_update (st : AlgoState) (b : BMap) (maxHealth : ℚ) (turn r : ℕ)
    (resp : ℕ → Bool) (mp cost : ℚ) : AlgoState × List Action :=
  let st1 := { st with
    wall_locations := get_wall_locations b,
    low_health_walls := find_low_health_walls b maxHealth (2/5) }
  spam_strategy st1 turn r resp mp cost

/-- Breach event entry of the action-frame feed: location (entry 0), unit
kind (entry 3), owning-player marker (entry 4; 1 means self). -/
structure Breach where
  loc : Loc
  unitType : UnitType
  owner : ℕ
deriving DecidableEq

/-- Per-event body of the on_action_frame loop: non-self breaches append to
the cumulative scored_on_locations; self-owned wall breaches append to
wall_breaches. -/
def processBreach (st : AlgoState) (br : Breach) : AlgoState :=
  let st1 :=
    if br.owner ≠ 1 then
      { st with scored_on_locations := st.scored_on_locations ++ [br.loc] }
    else st
  if br.unitType = .WALL ∧ br.owner = 1 then
    { st1 with wall_breaches := st1.wall_breaches ++ [br.loc] }
  else st1

/-- Model of AlgoStrategy.on_action_frame: reset wall_breaches for the new
frame, then process the frame's breach events in order. -/
def on_action_frame (st : AlgoState) (frame : List Breach) : AlgoState :=
  frame.foldl processBreach { st with wall_breaches := [] }

/-- Whole-match run: state entering turn n, starting from on_game_start,
processing each turn's planning pass and then that turn's action frames.
b gives the per-turn snapshot, rand the per-turn randint(1,2) oracle,
frames the per-turn action-frame feed. -/
def runTurns (b : ℕ → BMap) (maxHealth : ℚ) (rand : ℕ → ℕ) (resp : ℕ → Bool)
    (mp cost : ℚ) (frames : ℕ → List (List Breach)) : ℕ → AlgoState
  | 0 => initState
  | n + 1 =>
      (frames n).foldl on_action_frame
        (on_turn_update (runTurns b maxHealth rand resp mp cost frames n)
          (b n) maxHealth n (rand n) resp mp cost).1

/-- Engine view consumed by least_damage_spawn_location: the predicted
path to the edge from a spawn cell, the number of enemy attackers able to
hit a cell, and the turret per-shot damage against mobile units. -/
structure PathEnv where
  path : Loc → List Loc
  attackers : Loc → ℕ
  turretDamage : ℕ

/-- Damage estimate of one candidate: sum, over the predicted path cells,
of the attacker count times the turret per-shot damage. -/
def pathDamage (env : PathEnv) (l : Loc) : ℕ :=
  ((env.path l).map (fun p => env.attackers p * env.turretDamage)).sum

/-- Python min over a list of naturals: none on the empty list. -/
def listMin : List ℕ → Option ℕ
  | [] => none
  | d :: ds => some (ds.foldl Nat.min d)

/-- Python list.index: index of the first occurrence of m. -/
def idxOfD (m : ℕ) : List ℕ → ℕ
  | [] => 0
  | d :: ds => if d = m then 0 else idxOfD m ds + 1

/-- Model of AlgoStrategy.least_damage_spawn_location: compute each
candidate's path damage, then return the candidate at the first index of
the minimum damage; none for an empty candidate list (where the source
would raise). -/
def least_damage_spawn_location (env : PathEnv) (opts : List Loc) : Option Loc :=
  let damages := opts.map (pathDamage env)
  match listMin damages with
  | some m => opts[idxOfD m damages]?
  | none => none

/-- Index selected by least_damage_spawn_location, made explicit. -/
def leastIdx (env : PathEnv) (opts : List Loc) : ℕ :=
  match listMin (opts.map (pathDamage env)) with
  | some m => idxOfD m (opts.map (pathDamage env))
  | none => 0

/-- Unit entry of a game_map cell, as used by detect_enemy_unit. -/
structure MapUnit where
  unitType : UnitType
  playerIndex : ℕ
deriving DecidableEq

def isStationaryType : UnitType → Bool
  | .WALL | .SUPPORT | .TURRET => true
  | _ => false

def cellHasStationary (units : List MapUnit) : Bool :=
  units.any (fun u => isStationaryType u.unitType)

/-- Model of AlgoStrategy.detect_enemy_unit: iterate the arena cells the
engine map yields; at each cell holding a stationary unit, count the units
owned by player 1 that pass the optional type and coordinate filters. -/
def detect_enemy_unit (cells : List (Loc × List MapUnit)) (ut : Option UnitType)
    (vx vy : Option (List ℕ)) : ℕ :=
  cells.foldl (fun acc c =>
    if cellHasStationary c.2 then
      acc + (c.2.filter (fun u =>
        decide (u.playerIndex = 1) &&
        (ut.elim true (fun t => decide (u.unitType = t))) &&
        (vx.elim true (fun xs => xs.contains c.1.1)) &&
        (vy.elim true (fun ys => ys.contains c.1.2)))).length
    else acc) 0

/-- Mobile-unit plan picked by the improved strategy after its repair and
build phases. -/
inductive MobilePlan
  | interceptorStall
  | demolisherLine
  | scoutRushAndSupport
  | supportOnly
deriving DecidableEq

/-- Model of the dispatch logic of AlgoStrategy.improved_strategy: early
turns stall with interceptors; from turn 5 on, more than 8 enemy
stationary units in rows 14-15 select the demolisher line; otherwise
scouts on odd turns plus supports, supports alone on even turns. -/
def improved_choice (cells : List (Loc × List MapUnit)) (turn : ℕ) : MobilePlan :=
  if turn < 5 then .interceptorStall
  else if 8 < detect_enemy_unit cells none none (some [14, 15]) then .demolisherLine
  else if turn % 2 = 1 then .scoutRushAndSupport
  else .supportOnly

/- Concrete instances used by the closed counterexample and witness
theorems. -/

/-- Oracle answering true to every engine query. -/
def respT : ℕ → Bool := fun _ => true

/-- Empty friendly-half snapshot. -/
def bEmpty : BMap := fun _ => none

/-- Snapshot holding a single self-owned wall at (5,11) with 10 health. -/
def bLowWall : BMap := fun l => if l = (5,11) then some ⟨.WALL, 0, 10⟩ else none

/-- Path oracle with unreachable candidates on the x = 1 column: empty
path there, a one-cell path through (5,5) elsewhere. -/
def envUnreach : PathEnv :=
  ⟨fun l => if l.1 = 1 then [] else [(5,5)], fun _ => 1, 6⟩

/-- Path oracle with empty paths everywhere. -/
def envZero : PathEnv := ⟨fun _ => [], fun _ => 0, 6⟩

/-- Nine enemy turrets on row 14. -/
def cellsNine : List (Loc × List MapUnit) :=
  [((5,14), [⟨.TURRET, 1⟩]), ((6,14), [⟨.TURRET, 1⟩]), ((7,14), [⟨.TURRET, 1⟩]),
   ((8,14), [⟨.TURRET, 1⟩]), ((9,14), [⟨.TURRET, 1⟩]), ((10,14), [⟨.TURRET, 1⟩]),
   ((11,14), [⟨.TURRET, 1⟩]), ((12,14), [⟨.TURRET, 1⟩]), ((13,14), [⟨.TURRET, 1⟩])]

/-- Constant index oracle for the stall loop. -/
def pickZero : ℕ → ℕ := fun _ => 0

/-- Per-turn oracle that always rolls 1. -/
def randOne : ℕ → ℕ := fun _ => 1

/-- Empty per-turn action-frame feed. -/
def framesEmpty : ℕ → List (List Breach) := fun _ => []

/-- Per-turn snapshot oracle returning the empty board. -/
def bTurns : ℕ → BMap := fun _ => bEmpty

/-- State produced by ingesting one frame whose single breach is the
self-owned wall breach at (5,13). -/
def stBreach : AlgoState := on_action_frame initState [⟨(5,13), .WALL, 1⟩]

/-- State with the stored branch value 1. -/
def stOne : AlgoState := ⟨[], [], [], [], some 1⟩

/- Helper lemmas on breach ingestion. -/

lemma processBreach_scored (st : AlgoState) (br : Breach) :
    (processBreach st br).scored_on_locations
      = st.scored_on_locations ++ (if br.owner = 1 then [] else [br.loc]) := by
  unfold processBreach
  by_cases h : br.owner = 1 <;>
    by_cases hw : br.unitType = UnitType.WALL <;>
    simp [h, hw]

lemma processBreach_walls (st : AlgoState) (br : Breach) :
    (processBreach st br).wall_breaches
      = st.wall_breaches ++
        (if br.unitType = UnitType.WALL ∧ br.owner = 1 then [br.loc] else []) := by
  unfold processBreach
  by_cases h : br.owner = 1 <;>
    by_cases hw : br.unitType = UnitType.WALL <;>
    simp [h, hw]

lemma processBreach_rndm (st : AlgoState) (br : Breach) :
    (processBreach st br).rndm = st.rndm := by
  unfold processBreach
  by_cases h : br.owner = 1 <;>
    by_cases hw : br.unitType = UnitType.WALL <;>
    simp [h, hw]

lemma foldl_pb_scored (frame : List Breach) : ∀ st : AlgoState,
    (frame.foldl processBreach st).scored_on_locations
      = st.scored_on_locations ++
        (frame.filter (fun br => decide (br.owner ≠ 1))).map Breach.loc := by
  induction frame with
  | nil => intro st; simp
  | cons br frame ih =>
      intro st
      simp only [List.foldl_cons, ih, processBreach_scored]
      by_cases h : br.owner = 1 <;> simp [h]

lemma foldl_pb_walls (frame : List Breach) : ∀ st : AlgoState,
    (frame.foldl processBreach st).wall_breaches
      = st.wall_breaches ++
        (frame.filter
          (fun br => decide (br.unitType = UnitType.WALL ∧ br.owner = 1))).map Breach.loc := by
  induction frame with
  | nil => intro st; simp
  | cons br frame ih =>
      intro st
      simp only [List.foldl_cons, ih, processBreach_walls]
      by_cases h : br.unitType = UnitType.WALL ∧ br.owner = 1 <;> simp [h]

lemma foldl_pb_rndm (frame : List Breach) : ∀ st : AlgoState,
    (frame.foldl processBreach st).rndm = st.rndm := by
  induction frame with
  | nil => intro st; rfl
  | cons br frame ih => intro st; simp [List.foldl_cons, ih, processBreach_rndm]

lemma oaf_scored (st : AlgoState) (frame : List Breach) :
    (on_action_frame st frame).scored_on_locations
      = st.scored_on_locations ++
        (frame.filter (fun br => decide (br.owner ≠ 1))).map Breach.loc := by
  unfold on_action_frame
  rw [foldl_pb_scored]

lemma oaf_walls (st : AlgoState) (frame : List Breach) :
    (on_action_frame st frame).wall_breaches
      = (frame.filter
          (fun br => decide (br.unitType = UnitType.WALL ∧ br.owner = 1))).map Breach.loc := by
  simp [on_action_frame, foldl_pb_walls]

lemma oaf_rndm (st : AlgoState) (frame : List Breach) :
    (on_action_frame st frame).rndm = st.rndm := by
  unfold on_action_frame
  rw [foldl_pb_rndm]

lemma frames_foldl_rndm (fs : List (List Breach)) : ∀ st : AlgoState,
    (fs.foldl on_action_frame st).rndm = st.rndm := by
  induction fs with
  | nil => intro st; rfl
  | cons f fs ih => intro st; simp [List.foldl_cons, ih, oaf_rndm]

/- Helper lemmas on the planning-pass state update. -/

lemma spam_fst (st : AlgoState) (turn r : ℕ) (resp : ℕ → Bool) (mp cost : ℚ) :
    (spam_strategy st turn r resp mp cost).1
      = if 2 ≤ turn ∧ turn % 2 = 0 then { st with rndm := some r } else st := by
  unfold spam_strategy
  by_cases h2 : 2 ≤ turn
  · have h1 : ¬(turn = 0 ∨ turn = 1) := by omega
    by_cases h3 : turn % 2 = 0 <;> simp [h1, h2, h3]
  · have h1 : turn = 0 ∨ turn = 1 := by omega
    have h4 : ¬(2 ≤ turn ∧ turn % 2 = 0) := fun hh => h2 hh.1
    simp [h1, h2, h4]

lemma on_turn_fst (st : AlgoState) (b : BMap) (mh : ℚ) (turn r : ℕ)
    (resp : ℕ → Bool) (mp cost : ℚ) :
    (on_turn_update st b mh turn r resp mp cost).1
      = if 2 ≤ turn ∧ turn % 2 = 0 then
          { st with wall_locations := get_wall_locations b,
                    low_health_walls := find_low_health_walls b mh (2/5),
                    rndm := some r }
        else
          { st with wall_locations := get_wall_locations b,
                    low_health_walls := find_low_health_walls b mh (2/5) } := by
  unfold on_turn_update
  rw [spam_fst]

lemma on_turn_scored (st : AlgoState) (b : BMap) (mh : ℚ) (turn r : ℕ)
    (resp : ℕ → Bool) (mp cost : ℚ) :
    (on_turn_update st b mh turn r resp mp cost).1.scored_on_locations
      = st.scored_on_locations := by
  rw [on_turn_fst]
  split <;> rfl

lemma on_turn_low (st : AlgoState) (b : BMap) (mh : ℚ) (turn r : ℕ)
    (resp : ℕ → Bool) (mp cost : ℚ) :
    (on_turn_update st b mh turn r resp mp cost).1.low_health_walls
      = find_low_health_walls b mh (2/5) := by
  rw [on_turn_fst]
  split <;> rfl

lemma on_turn_rndm_even (st : AlgoState) (b : BMap) (mh : ℚ) (turn r : ℕ)
    (resp : ℕ → Bool) (mp cost : ℚ) (h2 : 2 ≤ turn) (h3 : turn % 2 = 0) :
    (on_turn_update st b mh turn r resp mp cost).1.rndm = some r := by
  rw [on_turn_fst, if_pos ⟨h2, h3⟩]

/- Helper lemmas on emitted traces. -/

lemma spam_trace_even (st : AlgoState) (turn r : ℕ) (resp : ℕ → Bool) (mp cost : ℚ)
    (h2 : 2 ≤ turn) (h3 : turn % 2 = 0) :
    (spam_strategy st turn r resp mp cost).2
      = (repair_walls resp 0).1
        ++ (if r = 1 then [.remove (1,13), .remove (1,12)]
            else [.remove (26,13), .remove (26,12)])
        ++ [.spawn .INTERCEPTOR (10,3), .spawn .INTERCEPTOR (17,3)] := by
  unfold spam_strategy
  have h1 : ¬(turn = 0 ∨ turn = 1) := by omega
  simp [h1, h2, h3]

lemma spam_trace_odd (st : AlgoState) (turn r : ℕ) (resp : ℕ → Bool) (mp cost : ℚ)
    (h2 : 2 ≤ turn) (h3 : turn % 2 = 1) :
    (spam_strategy st turn r resp mp cost).2
      = (repair st.rndm resp 0).1
        ++ (if st.rndm = some 1 then corner_attack mp cost else corner2_attack mp cost) := by
  unfold spam_strategy
  have h1 : ¬(turn = 0 ∨ turn = 1) := by omega
  have h4 : ¬(turn % 2 = 0) := by omega
  simp [h1, h2, h4]

lemma spam_trace_early (st : AlgoState) (turn r : ℕ) (resp : ℕ → Bool) (mp cost : ℚ)
    (h : turn = 0 ∨ turn = 1) :
    (spam_strategy st turn r resp mp cost).2
      = build_defences ++ List.replicate 5 (.spawn .SCOUT (16,2)) := by
  unfold spam_strategy
  have h2 : ¬ 2 ≤ turn := by omega
  simp [h, h2]

lemma on_turn_trace (st : AlgoState) (b : BMap) (mh : ℚ) (turn r : ℕ)
    (resp : ℕ → Bool) (mp cost : ℚ) :
    (on_turn_update st b mh turn r resp mp cost).2
      = (spam_strategy
          { st with wall_locations := get_wall_locations b,
                    low_health_walls := find_low_health_walls b mh (2/5) }
          turn r resp mp cost).2 := rfl

/- Helper lemmas on the template loops. -/

lemma runLoop_filter_rm (body : Bool → Loc → List Action) (resp : ℕ → Bool)
    (hb : ∀ bo l, (body bo l).filter isRemoveAct = []) :
    ∀ (L : List Loc) (n : ℕ), ((runLoop body resp n L).1).filter isRemoveAct = [] := by
  intro L
  induction L with
  | nil => intro n; rfl
  | cons l ls ih => intro n; simp [runLoop, List.filter_append, hb, ih]

lemma wallBody_filter_rm : ∀ bo l, (wallSpawnUpgradeBody bo l).filter isRemoveAct = [] := by
  intro bo l; cases bo <;> rfl

lemma seuBody_filter_rm (ut : UnitType) :
    ∀ bo l, (spawnElseUpgradeBody ut bo l).filter isRemoveAct = [] := by
  intro bo l; cases bo <;> rfl

lemma soBody_filter_rm (ut : UnitType) :
    ∀ bo l, (spawnOnlyBody ut bo l).filter isRemoveAct = [] := by
  intro bo l; cases bo <;> rfl

lemma atBody_filter_rm (ut : UnitType) :
    ∀ bo l, (attemptThenBody ut bo l).filter isRemoveAct = [] := by
  intro bo l; cases bo <;> rfl

lemma repair_walls_filter_rm (resp : ℕ → Bool) (n : ℕ) :
    ((repair_walls resp n).1).filter isRemoveAct = [] := by
  unfold repair_walls
  simp [List.filter_append,
    runLoop_filter_rm wallSpawnUpgradeBody resp wallBody_filter_rm,
    runLoop_filter_rm (spawnElseUpgradeBody .TURRET) resp (seuBody_filter_rm .TURRET),
    runLoop_filter_rm (spawnOnlyBody .WALL) resp (soBody_filter_rm .WALL),
    runLoop_filter_rm (attemptThenBody .SUPPORT) resp (atBody_filter_rm .SUPPORT),
    runLoop_filter_rm (attemptThenBody .TURRET) resp (atBody_filter_rm .TURRET)]

lemma repair_filter_rm (o : Option ℕ) (resp : ℕ → Bool) (n : ℕ) :
    ((repair o resp n).1).filter isRemoveAct = [] := by
  unfold repair
  split <;>
    simp [runLoop_filter_rm (spawnElseUpgradeBody .WALL) resp (seuBody_filter_rm .WALL)]

lemma not_mem_of_filter_rm {tr : List Action} (hf : tr.filter isRemoveAct = [])
    (l : Loc) : Action.remove l ∉ tr := by
  intro hmem
  have hx : Action.remove l ∈ tr.filter isRemoveAct := List.mem_filter.mpr ⟨hmem, rfl⟩
  simp [hf] at hx

lemma runLoop_spawn_mem (body : Bool → Loc → List Action) (resp : ℕ → Bool)
    (hb : ∀ bo l ut x, Action.spawn ut x ∈ body bo l → x = l) :
    ∀ (L : List Loc) (n : ℕ) (ut : UnitType) (x : Loc),
      Action.spawn ut x ∈ (runLoop body resp n L).1 → x ∈ L := by
  intro L
  induction L with
  | nil => intro n ut x h; simp [runLoop] at h
  | cons l ls ih =>
      intro n ut x h
      simp only [runLoop, List.mem_append] at h
      rcases h with h | h
      · exact (hb _ _ _ _ h) ▸ List.mem_cons_self l ls
      · exact List.mem_cons_of_mem l (ih _ _ _ h)

lemma wallBody_spawn : ∀ bo l ut x,
    Action.spawn ut x ∈ wallSpawnUpgradeBody bo l → x = l := by
  intro bo l ut x h
  cases bo <;> simp [wallSpawnUpgradeBody] at h
  exact h.2

lemma seuBody_spawn (ut0 : UnitType) : ∀ bo l ut x,
    Action.spawn ut x ∈ spawnElseUpgradeBody ut0 bo l → x = l := by
  intro bo l ut x h
  cases bo <;> simp [spawnElseUpgradeBody] at h
  exact h.2

lemma soBody_spawn (ut0 : UnitType) : ∀ bo l ut x,
    Action.spawn ut x ∈ spawnOnlyBody ut0 bo l → x = l := by
  intro bo l ut x h
  cases bo <;> simp [spawnOnlyBody] at h
  exact h.2

lemma atBody_spawn (ut0 : UnitType) : ∀ bo l ut x,
    Action.spawn ut x ∈ attemptThenBody ut0 bo l → x = l := by
  intro bo l ut x h
  cases bo <;> simp [attemptThenBody] at h <;> tauto

lemma repair_walls_spawn_mem (resp : ℕ → Bool) (n : ℕ) (ut : UnitType) (x : Loc)
    (h : Action.spawn ut x ∈ (repair_walls resp n).1) :
    x ∈ corner_walls ++ corner_turrets ++ start_wall_locations ++ midWallLocs
        ++ start_turret_locations ++ supportSpawnLocs ++ second_turret_locations := by
  unfold repair_walls at h
  simp only [List.mem_append] at h ⊢
  rcases h with ((((((h | h) | h) | h) | h) | h) | h)
  · have hx := runLoop_spawn_mem _ resp wallBody_spawn _ _ _ _ h; tauto
  · have hx := runLoop_spawn_mem _ resp (seuBody_spawn .TURRET) _ _ _ _ h; tauto
  · have hx := runLoop_spawn_mem _ resp (soBody_spawn .WALL) _ _ _ _ h; tauto
  · have hx := runLoop_spawn_mem _ resp wallBody_spawn _ _ _ _ h; tauto
  · have hx := runLoop_spawn_mem _ resp (seuBody_spawn .TURRET) _ _ _ _ h; tauto
  · have hx := runLoop_spawn_mem _ resp (atBody_spawn .SUPPORT) _ _ _ _ h; tauto
  · have hx := runLoop_spawn_mem _ resp (atBody_spawn .TURRET) _ _ _ _ h; tauto

/- Helper lemmas on the mobile-unit spawn loops. -/

lemma floor_ratio_decrease (cost mp : ℚ) (hc : 0 < cost) (hle : cost ≤ mp) :
    ⌊(mp - cost) / cost⌋.toNat < ⌊mp / cost⌋.toNat := by
  have hne : cost ≠ 0 := ne_of_gt hc
  have h1 : (mp - cost) / cost = mp / cost - 1 := by
    rw [sub_div, div_self hne]
  have h3 : (1 : ℤ) ≤ ⌊mp / cost⌋ := by
    rw [Int.le_floor]
    push_cast
    exact (one_le_div hc).mpr hle
  have h2 : ⌊(mp - cost) / cost⌋ = ⌊mp / cost⌋ - 1 := by
    rw [h1]
    have h4 := Int.floor_sub_int (mp / cost) 1
    push_cast at h4
    exact h4
  rw [h2]
  omega

lemma spawnLoop_eq (cost mp : ℚ) :
    spawnLoop cost mp
      = if 0 < cost ∧ cost ≤ mp then spawnLoop cost (mp - cost) + 1 else 0 := by
  conv_lhs => rw [spawnLoop]
  split <;> rfl

lemma stall_loop_eq (cost : ℚ) (deploy : List Loc) (pick : ℕ → ℕ) (mp : ℚ) (n : ℕ) :
    stall_loop cost deploy pick mp n
      = if 0 < cost ∧ cost ≤ mp ∧ deploy ≠ [] then
          Action.spawn .INTERCEPTOR (deploy.getD (pick n % deploy.length) (0,0)) ::
            stall_loop cost deploy pick (mp - cost) (n+1)
        else [] := by
  conv_lhs => rw [stall_loop]
  split <;> rfl

lemma spawnLoop_exit (cost : ℚ) (hc : 0 < cost) :
    ∀ mp : ℚ, mp - (spawnLoop cost mp : ℚ) * cost < cost := by
  have H : ∀ k : ℕ, ∀ mp : ℚ, ⌊mp / cost⌋.toNat = k →
      mp - (spawnLoop cost mp : ℚ) * cost < cost := by
    intro k
    induction k using Nat.strong_induction_on with
    | _ k ih =>
      intro mp hk
      rw [spawnLoop_eq]
      by_cases hle : cost ≤ mp
      · rw [if_pos ⟨hc, hle⟩]
        have hdec : ⌊(mp - cost) / cost⌋.toNat < k :=
          hk ▸ floor_ratio_decrease cost mp hc hle
        have hrec := ih _ hdec (mp - cost) rfl
        push_cast
        push_cast at hrec
        linarith
      · rw [if_neg (fun hh => hle hh.2)]
        push_cast
        linarith [not_le.mp hle]
  intro mp
  exact H _ mp rfl

lemma stall_loop_length (cost : ℚ) (hc : 0 < cost) (deploy : List Loc)
    (hd : deploy ≠ []) (pick : ℕ → ℕ) :
    ∀ (mp : ℚ) (n : ℕ), (stall_loop cost deploy pick mp n).length = spawnLoop cost mp := by
  have H : ∀ k : ℕ, ∀ (mp : ℚ) (n : ℕ), ⌊mp / cost⌋.toNat = k →
      (stall_loop cost deploy pick mp n).length = spawnLoop cost mp := by
    intro k
    induction k using Nat.strong_induction_on with
    | _ k ih =>
      intro mp n hk
      rw [stall_loop_eq, spawnLoop_eq]
      by_cases hle : cost ≤ mp
      · rw [if_pos ⟨hc, hle, hd⟩, if_pos ⟨hc, hle⟩]
        have hdec : ⌊(mp - cost) / cost⌋.toNat < k :=
          hk ▸ floor_ratio_decrease cost mp hc hle
        simp [ih _ hdec (mp - cost) (n+1) rfl]
      · rw [if_neg (fun hh => hle hh.2.1), if_neg (fun hh => hle hh.2)]
        rfl
  intro mp n
  exact H _ mp n rfl

lemma filter_replicate_pos {p : Action → Bool} {a : Action} (h : p a = true) :
    ∀ k : ℕ, (List.replicate k a).filter p = List.replicate k a := by
  intro k
  induction k with
  | zero => rfl
  | succ k ih => simp [List.replicate_succ, h, ih]

/- Helper lemmas on the minimum and first-index combinators of the Risk
Estimator. -/

lemma foldl_min_le_init : ∀ (ds : List ℕ) (a : ℕ), ds.foldl Nat.min a ≤ a := by
  intro ds
  induction ds with
  | nil => intro a; simp
  | cons d ds ih =>
      intro a
      exact le_trans (ih (Nat.min a d)) (Nat.min_le_left a d)

lemma foldl_min_le_mem : ∀ (ds : List ℕ) (a x : ℕ), x ∈ ds → ds.foldl Nat.min a ≤ x := by
  intro ds
  induction ds with
  | nil => intro a x hx; cases hx
  | cons d ds ih =>
      intro a x hx
      rcases List.mem_cons.mp hx with rfl | hx
      · exact le_trans (foldl_min_le_init ds (Nat.min a x)) (Nat.min_le_right a x)
      · exact ih (Nat.min a d) x hx

lemma foldl_min_mem : ∀ (ds : List ℕ) (a : ℕ),
    ds.foldl Nat.min a = a ∨ ds.foldl Nat.min a ∈ ds := by
  intro ds
  induction ds with
  | nil => intro a; exact Or.inl rfl
  | cons d ds ih =>
      intro a
      simp only [List.foldl_cons]
      rcases ih (Nat.min a d) with h | h
      · rcases Nat.le_total a d with had | hda
        · exact Or.inl (by rw [h]; exact Nat.min_eq_left had)
        · refine Or.inr (List.mem_cons.mpr (Or.inl ?_))
          rw [h]
          exact Nat.min_eq_right hda
      · exact Or.inr (List.mem_cons.mpr (Or.inr h))

lemma listMin_spec (l : List ℕ) (h : l ≠ []) :
    ∃ m, listMin l = some m ∧ m ∈ l ∧ ∀ x ∈ l, m ≤ x := by
  cases l with
  | nil => exact absurd rfl h
  | cons d ds =>
      refine ⟨ds.foldl Nat.min d, rfl, ?_, ?_⟩
      · rcases foldl_min_mem ds d with hm | hm
        · exact List.mem_cons.mpr (Or.inl hm)
        · exact List.mem_cons.mpr (Or.inr hm)
      · intro x hx
        rcases List.mem_cons.mp hx with rfl | hx
        · exact foldl_min_le_init ds x
        · exact foldl_min_le_mem ds d x hx

lemma idxOfD_spec : ∀ (l : List ℕ) (m : ℕ), m ∈ l →
    idxOfD m l < l.length ∧ l.getD (idxOfD m l) 0 = m ∧
      ∀ j, j < idxOfD m l → l.getD j 0 ≠ m := by
  intro l
  induction l with
  | nil => intro m hm; cases hm
  | cons d ds ih =>
      intro m hm
      by_cases hd : d = m
      · refine ⟨by simp [idxOfD, hd], by simp [idxOfD, hd], ?_⟩
        intro j hj
        simp [idxOfD, hd] at hj
      · have hm2 : m ∈ ds := by
          rcases List.mem_cons.mp hm with h | h
          · exact absurd h.symm hd
          · exact h
        obtain ⟨h1, h2, h3⟩ := ih m hm2
        have hidx : idxOfD m (d :: ds) = idxOfD m ds + 1 := by simp [idxOfD, hd]
        refine ⟨?_, ?_, ?_⟩
        · rw [hidx]; simpa using Nat.succ_lt_succ h1
        · rw [hidx]; simpa using h2
        · intro j hj
          rw [hidx] at hj
          cases j with
          | zero => simpa using hd
          | succ j =>
              have := h3 j (by omega)
              simpa using this

lemma getD_mem_nat : ∀ (l : List ℕ) (j : ℕ), j < l.length → l.getD j 0 ∈ l := by
  intro l
  induction l with
  | nil => intro j hj; simp at hj
  | cons d ds ih =>
      intro j hj
      cases j with
      | zero => simp
      | succ j =>
          refine List.mem_cons.mpr (Or.inr ?_)
          simpa using ih j (by simpa using hj)

lemma getD_map_pd (env : PathEnv) : ∀ (l : List Loc) (j : ℕ), j < l.length →
    (l.map (pathDamage env)).getD j 0 = pathDamage env (l.getD j (0,0)) := by
  intro l
  induction l with
  | nil => intro j hj; simp at hj
  | cons a as ih =>
      intro j hj
      cases j with
      | zero => simp
      | succ j => simpa using ih j (by simpa using hj)

lemma getElem?_eq_some_getD {α : Type} (dflt : α) : ∀ (l : List α) (i : ℕ),
    i < l.length → l[i]? = some (l.getD i dflt) := by
  intro l
  induction l with
  | nil => intro i hi; simp at hi
  | cons a as ih =>
      intro i hi
      cases i with
      | zero => simp
      | succ i => simpa using ih i (by simpa using hi)

/- Claim theorems. -/

/-- C2, counterexample: wall_breaches does not accumulate over the frames
of a turn.  A self-owned wall breach at (5,13) arrives in one action frame
and a later empty frame follows; at planning time wall_breaches is empty,
although the second conjunct shows the earlier frame had recorded the
breach. -/
theorem claim2_counterexample :
    (on_action_frame (on_action_frame initState [⟨(5,13), .WALL, 1⟩]) []).wall_breaches = []
    ∧ (on_action_frame initState [⟨(5,13), .WALL, 1⟩]).wall_breaches = [(5,13)] := by
  decide

/-- C2, amended: on_action_frame resets wall_breaches at the start of
every action frame, so after processing a frame the list holds exactly
that frame's self-owned WALL breach locations — earlier frames of the same
turn are discarded, and the planning pass performs no clearing of its own. -/
theorem claim2_amended (st : AlgoState) (frame : List Breach) :
    (on_action_frame st frame).wall_breaches
      = (frame.filter
          (fun br => decide (br.unitType = UnitType.WALL ∧ br.owner = 1))).map Breach.loc :=
  oaf_walls st frame

/-- C4: scored_on_locations is append-only across the whole match: action
frame ingestion appends exactly the non-self breach locations of the frame
(so its length never decreases), and the planning pass leaves it unchanged. -/
theorem claim4_scored_append_only (st : AlgoState) (frame : List Breach) (b : BMap)
    (mh : ℚ) (turn r : ℕ) (resp : ℕ → Bool) (mp cost : ℚ) :
    (on_action_frame st frame).scored_on_locations
      = st.scored_on_locations ++
        (frame.filter (fun br => decide (br.owner ≠ 1))).map Breach.loc
    ∧ st.scored_on_locations.length ≤ (on_action_frame st frame).scored_on_locations.length
    ∧ (on_turn_update st b mh turn r resp mp cost).1.scored_on_locations
        = st.scored_on_locations := by
  refine ⟨oaf_scored st frame, ?_, on_turn_scored st b mh turn r resp mp cost⟩
  rw [oaf_scored st frame]
  simp

/-- C6, counterexample: in least_damage_spawn_location an unreachable
candidate (empty predicted path) scores damage 0 and therefore wins the
minimum over a reachable candidate with positive path damage — the
unreachable candidate is favored, contradicting the claim. -/
theorem claim6_counterexample :
    least_damage_spawn_location envUnreach [(1,1), (2,2)] = some ((1,1) : Loc)
    ∧ envUnreach.path (1,1) = []
    ∧ 0 < pathDamage envUnreach (2,2) := by
  decide

/-- C6, amended: a candidate with an empty predicted path has path damage
0, the least possible value, so whenever it is listed together with a
reachable candidate of positive path damage, the unreachable candidate is
returned — unreachable candidates are favored by the minimum, not
deprioritized. -/
theorem claim6_amended (env : PathEnv) (u r2 : Loc) (hu : env.path u = [])
    (hr : 0 < pathDamage env r2) :
    least_damage_spawn_location env [u, r2] = some u
    ∧ pathDamage env u < pathDamage env r2 := by
  have hpu : pathDamage env u = 0 := by simp [pathDamage, hu]
  constructor
  · simp [least_damage_spawn_location, listMin, hpu, idxOfD]
  · rw [hpu]; exact hr

/-- C6, amended, witness at a concrete path oracle: the column-1 candidate
is unreachable and is returned over the reachable candidate (9,9) of
damage 6. -/
theorem claim6_amended_witness :
    least_damage_spawn_location envUnreach [(1,7), (9,9)] = some ((1,7) : Loc)
    ∧ pathDamage envUnreach (1,7) < pathDamage envUnreach (9,9) :=
  claim6_amended envUnreach (1,7) (9,9) (by decide) (by decide)

/-- C8: in the improved (non-turtle) strategy variant, on any turn of
number at least 5 with more than 8 enemy stationary units in rows 14-15,
the demolisher line posture is chosen, and likewise on the following turn
of opposite parity. -/
theorem claim8_bombardment (cells : List (Loc × List MapUnit)) (turn : ℕ)
    (h5 : 5 ≤ turn)
    (h9 : 8 < detect_enemy_unit cells none none (some [14, 15])) :
    improved_choice cells turn = .demolisherLine
    ∧ improved_choice cells (turn + 1) = .demolisherLine := by
  have h1 : ¬ turn < 5 := by omega
  have h2 : ¬ turn + 1 < 5 := by omega
  constructor <;> simp [improved_choice, h1, h2, h9]

/-- C8, witness: nine enemy turrets on row 14 force the demolisher line on
turn 5 (odd) and on turn 6 (even). -/
theorem claim8_bombardment_witness :
    improved_choice cellsNine 5 = MobilePlan.demolisherLine
    ∧ improved_choice cellsNine 6 = MobilePlan.demolisherLine := by
  have h := claim8_bombardment cellsNine 5 (le_refl 5) (by decide)
  exact ⟨h.1, h.2⟩

/-- C10: under per-turn invocation for consecutive turn numbers from 0,
with every randint(1,2) oracle value in 1..2, the state entering any odd
turn of number at least 3 carries rndm = some v with v in 1..2 — the
Strike branch never reads the initial none, because the preceding even
turn of number at least 2 always re-assigned it. -/
theorem claim10_rndm_set (b : ℕ → BMap) (mh : ℚ) (rand : ℕ → ℕ) (resp : ℕ → Bool)
    (mp cost : ℚ) (frames : ℕ → List (List Breach))
    (hr : ∀ t, rand t = 1 ∨ rand t = 2) (t : ℕ) (h1 : t % 2 = 1) (h3 : 3 ≤ t) :
    ∃ v, (runTurns b mh rand resp mp cost frames t).rndm = some v ∧ (v = 1 ∨ v = 2) := by
  obtain ⟨k, rfl⟩ : ∃ k, t = k + 1 := ⟨t - 1, by omega⟩
  refine ⟨rand k, ?_, hr k⟩
  have hk2 : 2 ≤ k := by omega
  have hke : k % 2 = 0 := by omega
  show ((frames k).foldl on_action_frame
    (on_turn_update (runTurns b mh rand resp mp cost frames k)
      (b k) mh k (rand k) resp mp cost).1).rndm = some (rand k)
  rw [frames_foldl_rndm]
  exact on_turn_rndm_even _ _ _ _ _ _ _ _ hk2 hke

/-- C10, witness: with the all-ones roll oracle, empty boards and empty
frame feeds, the state entering turn 3 carries rndm = some 1. -/
theorem claim10_rndm_set_witness :
    ∃ v, (runTurns bTurns 60 randOne respT 0 1 framesEmpty 3).rndm = some v
      ∧ (v = 1 ∨ v = 2) :=
  claim10_rndm_set bTurns 60 randOne respT 0 1 framesEmpty
    (fun _ => Or.inl rfl) 3 rfl (le_refl 3)

/-- C7: the branch value is written only by the Consolidate branch (even
turn of number at least 2) and read unmodified by Strike (odd turn).  With
roll 1 the Consolidate trace's removals are exactly the left corner pair
(1,13), (1,12) and nothing at the right corner; an odd turn never changes
rndm; and an odd turn of number at least 3 entered with rndm = some 1 runs
repair on the branch-1 list followed by corner_attack — the left lane, not
corner2_attack. -/
theorem claim7_branch_coupling (st : AlgoState) (r : ℕ) (resp : ℕ → Bool)
    (mp cost : ℚ) :
    (∀ t, 2 ≤ t → t % 2 = 0 →
      (spam_strategy st t r resp mp cost).1.rndm = some r
      ∧ (r = 1 → (spam_strategy st t r resp mp cost).2.filter isRemoveAct
          = [.remove (1,13), .remove (1,12)]))
    ∧ (∀ t, t % 2 = 1 → (spam_strategy st t r resp mp cost).1.rndm = st.rndm)
    ∧ (∀ t, 3 ≤ t → t % 2 = 1 → st.rndm = some 1 →
      (spam_strategy st t r resp mp cost).2
        = (repair (some 1) resp 0).1 ++ corner_attack mp cost) := by
  refine ⟨?_, ?_, ?_⟩
  · intro t h2 h3
    constructor
    · rw [spam_fst, if_pos ⟨h2, h3⟩]
    · intro hr1
      rw [spam_trace_even st t r resp mp cost h2 h3, if_pos hr1]
      simp [List.filter_append, repair_walls_filter_rm, isRemoveAct]
  · intro t h3
    rw [spam_fst]
    have hne : ¬(2 ≤ t ∧ t % 2 = 0) := by omega
    rw [if_neg hne]
  · intro t h3 hodd hst
    rw [spam_trace_odd st t r resp mp cost (by omega) hodd, hst]
    simp

/-- C7, witness: at turns 2 and 3 with roll 1 and stored branch 1, the
Consolidate removals are exactly the left pair, the branch survives the
Strike turn unmodified, and Strike opens the left lane via corner_attack. -/
theorem claim7_branch_coupling_witness :
    (spam_strategy stOne 2 1 respT 0 1).1.rndm = some 1
    ∧ (spam_strategy stOne 2 1 respT 0 1).2.filter isRemoveAct
        = [.remove (1,13), .remove (1,12)]
    ∧ (spam_strategy stOne 3 1 respT 0 1).1.rndm = some 1
    ∧ (spam_strategy stOne 3 1 respT 0 1).2
        = (repair (some 1) respT 0).1 ++ corner_attack 0 1 := by
  obtain ⟨h1, h2, h3⟩ := claim7_branch_coupling stOne 1 respT 0 1
  have he := h1 2 (by omega) rfl
  exact ⟨he.1, he.2 rfl, h2 3 rfl, h3 3 (by omega) rfl rfl⟩

/-- C9: the planning pass terminates on every input.  The spawn loop obeys
the source's while-guard step equation for positive unit cost, exits after
finitely many spawns with the mobility pool below the cost, the scout
loops of corner_attack and corner2_attack issue exactly that many spawns,
and the stall_with_interceptors loop (non-empty deploy list) iterates the
same finite number of times. -/
theorem claim9_loops_terminate (cost mp : ℚ) (hc : 0 < cost) :
    (spawnLoop cost mp = if cost ≤ mp then spawnLoop cost (mp - cost) + 1 else 0)
    ∧ mp - (spawnLoop cost mp : ℚ) * cost < cost
    ∧ ((corner_attack mp cost).filter isScoutSpawnAct).length = spawnLoop cost mp
    ∧ ((corner2_attack mp cost).filter isScoutSpawnAct).length = spawnLoop cost mp
    ∧ (∀ deploy : List Loc, deploy ≠ [] → ∀ (pick : ℕ → ℕ) (n : ℕ),
        (stall_loop cost deploy pick mp n).length = spawnLoop cost mp) := by
  refine ⟨?_, spawnLoop_exit cost hc mp, ?_, ?_, ?_⟩
  · rw [spawnLoop_eq]
    by_cases hle : cost ≤ mp
    · rw [if_pos ⟨hc, hle⟩, if_pos hle]
    · rw [if_neg (fun hh => hle hh.2), if_neg hle]
  · simp [corner_attack, List.filter_append, corner_attack_wall_locations,
      isScoutSpawnAct,
      @filter_replicate_pos isScoutSpawnAct (Action.spawn .SCOUT (22,8)) rfl]
  · simp [corner2_attack, List.filter_append, corner_attack_wall_locations,
      isScoutSpawnAct,
      @filter_replicate_pos isScoutSpawnAct (Action.spawn .SCOUT (5,8)) rfl]
  · intro deploy hd pick n
    exact stall_loop_length cost hc deploy hd pick mp n

/-- C9, witness at cost 1 and pool 3: the loop exits with the pool below
the cost and the stall loop over a one-cell deploy list matches the spawn
count. -/
theorem claim9_loops_terminate_witness :
    ((3 : ℚ) - (spawnLoop 1 3 : ℚ) * 1 < 1)
    ∧ (stall_loop 1 [((13,0) : Loc)] pickZero 3 0).length = spawnLoop 1 3 := by
  have h := claim9_loops_terminate 1 3 (by norm_num)
  exact ⟨h.2.1, h.2.2.2.2 [(13,0)] (by simp) pickZero 0⟩

/-- C1, counterexample: after a self-owned WALL breach event at (5,13) is
ingested from the previous turn's action log, the next turn's maintenance
pass issues no wall spawn at (5,13) at all, and its first build action is
the fixed template spawn at (0,13) — the breach list drives no re-spawn. -/
theorem claim1_counterexample :
    stBreach.wall_breaches = [(5,13)]
    ∧ Action.spawn .WALL (5,13) ∉ (on_turn_update stBreach bEmpty 60 2 1 respT 0 1).2
    ∧ (on_turn_update stBreach bEmpty 60 2 1 respT 0 1).2.head?
        = some (.spawn .WALL (0,13)) := by
  decide

/-- C1, amended: the maintenance pass never reads wall_breaches — its
spawns go only to the fixed template locations, so a recorded breach at
(5,13) (not a template cell) produces no spawn there, and the first action
of the turn-2 pass is at the corner-wall template cell (0,13). -/
theorem claim1_amended (st : AlgoState) (b : BMap) (mh : ℚ) (r : ℕ)
    (resp : ℕ → Bool) (mp cost : ℚ) (hb : st.wall_breaches = [(5,13)]) :
    (∀ ut x, Action.spawn ut x ∈ (on_turn_update st b mh 2 r resp mp cost).2
      → x ∉ st.wall_breaches)
    ∧ (∃ a tl, (on_turn_update st b mh 2 r resp mp cost).2 = a :: tl
        ∧ actLoc a = (0,13)) := by
  have htr : (on_turn_update st b mh 2 r resp mp cost).2
      = (repair_walls resp 0).1
        ++ ((if r = 1 then [.remove (1,13), .remove (1,12)]
            else [.remove (26,13), .remove (26,12)])
        ++ [.spawn .INTERCEPTOR (10,3), .spawn .INTERCEPTOR (17,3)]) := by
    rw [on_turn_trace]
    rw [spam_trace_even _ 2 r resp mp cost (by omega) rfl]
    simp [List.append_assoc]
  constructor
  · intro ut x hmem hx
    rw [hb] at hx
    simp only [List.mem_singleton] at hx
    subst hx
    rw [htr] at hmem
    rcases List.mem_append.mp hmem with h | h
    · have hx := repair_walls_spawn_mem resp 0 ut (5,13) h
      revert hx
      decide
    · rcases List.mem_append.mp h with h | h
      · split at h <;> simp at h
      · simp at h
  · have hsh : ∃ tl, (repair_walls resp 0).1
        = (if resp 0 then Action.spawn .WALL (0,13) else .upgrade (0,13)) :: tl := by
      unfold repair_walls
      cases hr0 : resp 0 <;>
        simp [runLoop, corner_walls, wallSpawnUpgradeBody, hr0]
    obtain ⟨tl, htl⟩ := hsh
    rw [htr, htl]
    exact ⟨_, _, List.cons_append _ _ _, by cases resp 0 <;> rfl⟩

/-- C1, amended, witness: with the breach at (5,13) recorded, the turn-2
pass on the empty board never spawns a wall at (5,13). -/
theorem claim1_amended_witness :
    Action.spawn UnitType.WALL ((5,13) : Loc)
      ∉ (on_turn_update stBreach bEmpty 60 2 1 respT 0 1).2 := by
  intro hmem
  exact (claim1_amended stBreach bEmpty 60 1 respT 0 1 (by decide)).1
    UnitType.WALL (5,13) hmem (by decide)

/-- C3, counterexample: a self-owned wall at (5,11) with health 10 of 60
is recorded in low_health_walls by the turn-2 scan and the cell still
holds a stationary unit, yet the maintenance pass issues no remove at
(5,11) — there is no discard-and-rebuild for low-health walls. -/
theorem claim3_counterexample :
    (on_turn_update initState bLowWall 60 2 1 respT 0 1).1.low_health_walls = [(5,11)]
    ∧ (bLowWall (5,11)).isSome = true
    ∧ Action.remove (5,11) ∉ (on_turn_update initState bLowWall 60 2 1 respT 0 1).2 := by
  have hscan : find_low_health_walls bLowWall 60 (2/5) = [(5,11)] := by
    have hlt : (10:ℚ)/60 < 2/5 := by norm_num
    simp [find_low_health_walls, bLowWall, List.range_succ, List.filterMap_cons, hlt]
  refine ⟨?_, rfl, ?_⟩
  · rw [on_turn_low, hscan]
  · rw [on_turn_trace, spam_trace_even _ 2 1 respT 0 1 (by omega) rfl]
    decide

/-- C3, amended: low_health_walls is computed and logged but never acted
on: the only removals a planning pass can emit are the fixed Consolidate
corner removals and the Strike lane removals, independent of the
low-health scan. -/
theorem claim3_amended (st : AlgoState) (b : BMap) (mh : ℚ) (turn r : ℕ)
    (resp : ℕ → Bool) (mp cost : ℚ) (l : Loc)
    (hmem : Action.remove l ∈ (on_turn_update st b mh turn r resp mp cost).2) :
    l ∈ ([(1,13), (1,12), (26,13), (26,12), (12,5), (15,5)] : List Loc) := by
  rw [on_turn_trace] at hmem
  by_cases h2 : 2 ≤ turn
  · by_cases he : turn % 2 = 0
    · rw [spam_trace_even _ turn r resp mp cost h2 he] at hmem
      rcases List.mem_append.mp hmem with h | h
      · rcases List.mem_append.mp h with h | h
        · exact absurd h (not_mem_of_filter_rm (repair_walls_filter_rm resp 0) l)
        · split at h <;> simp at h <;> rcases h with h | h <;> simp [h]
      · simp at h
    · have ho : turn % 2 = 1 := by omega
      rw [spam_trace_odd _ turn r resp mp cost h2 ho] at hmem
      rcases List.mem_append.mp hmem with h | h
      · exact absurd h (not_mem_of_filter_rm (repair_filter_rm _ resp 0) l)
      · split at h
        · simp [corner_attack, corner_attack_wall_locations] at h
          rcases h with h | h <;> simp [h]
        · simp [corner2_attack, corner_attack_wall_locations] at h
          rcases h with h | h <;> simp [h]
  · have h01 : turn = 0 ∨ turn = 1 := by omega
    rw [spam_trace_early _ turn r resp mp cost h01] at hmem
    rcases List.mem_append.mp hmem with h | h
    · simp [build_defences] at h
    · simp at h

/-- C3, amended, witness: the Consolidate corner removal at (1,13) on
turn 2 is indeed among the fixed removal locations. -/
theorem claim3_amended_witness :
    ((1,13) : Loc) ∈ ([(1,13), (1,12), (26,13), (26,12), (12,5), (15,5)] : List Loc) :=
  claim3_amended initState bEmpty 60 2 1 respT 0 1 (1,13) (by decide)

/-- C5: on a non-empty candidate list, least_damage_spawn_location
returns the candidate at the first index achieving the minimal
path-summed damage: the chosen index is in range, the chosen candidate's
damage is a lower bound for all candidates, every earlier candidate has
strictly larger damage (ties resolve to the first), a singleton list
returns its only element, and the result depends only on the engine view
(path, attackers, turret damage), hence is identical across repeated
calls on an identical board. -/
theorem claim5_least_damage (env : PathEnv) (opts : List Loc) (h : opts ≠ []) :
    leastIdx env opts < opts.length
    ∧ least_damage_spawn_location env opts
        = some (opts.getD (leastIdx env opts) (0,0))
    ∧ (∀ j, j < opts.length →
        pathDamage env (opts.getD (leastIdx env opts) (0,0))
          ≤ pathDamage env (opts.getD j (0,0)))
    ∧ (∀ j, j < leastIdx env opts →
        pathDamage env (opts.getD (leastIdx env opts) (0,0))
          < pathDamage env (opts.getD j (0,0)))
    ∧ (∀ l0, opts = [l0] → least_damage_spawn_location env opts = some l0)
    ∧ (∀ env2 : PathEnv, env2.path = env.path → env2.attackers = env.attackers →
        env2.turretDamage = env.turretDamage →
        least_damage_spawn_location env2 opts = least_damage_spawn_location env opts) := by
  have hd : opts.map (pathDamage env) ≠ [] := by
    intro hmap
    exact h (by simpa using hmap)
  obtain ⟨m, hmin, hmem, hle⟩ := listMin_spec (opts.map (pathDamage env)) hd
  obtain ⟨hlt, hget, hfirst⟩ := idxOfD_spec (opts.map (pathDamage env)) m hmem
  have hlen : (opts.map (pathDamage env)).length = opts.length := List.length_map _ _
  have hidx : leastIdx env opts = idxOfD m (opts.map (pathDamage env)) := by
    simp only [leastIdx, hmin]
  have hlid : leastIdx env opts < opts.length := by rw [hidx]; omega
  have hchosen : pathDamage env (opts.getD (leastIdx env opts) (0,0)) = m := by
    rw [hidx, ← getD_map_pd env opts (idxOfD m (opts.map (pathDamage env))) (by omega)]
    exact hget
  have hresult : least_damage_spawn_location env opts
      = some (opts.getD (leastIdx env opts) (0,0)) := by
    simp only [least_damage_spawn_location, hmin]
    rw [hidx]
    exact getElem?_eq_some_getD (0,0) opts _ (by omega)
  refine ⟨hlid, hresult, ?_, ?_, ?_, ?_⟩
  · intro j hj
    rw [hchosen]
    have hmemj : (opts.map (pathDamage env)).getD j 0 ∈ opts.map (pathDamage env) :=
      getD_mem_nat _ j (by omega)
    have hlej := hle _ hmemj
    rwa [getD_map_pd env opts j hj] at hlej
  · intro j hj
    have hjlen : j < opts.length := lt_trans hj hlid
    have hne : (opts.map (pathDamage env)).getD j 0 ≠ m := by
      apply hfirst
      rw [← hidx]
      exact hj
    have hgem : m ≤ (opts.map (pathDamage env)).getD j 0 :=
      hle _ (getD_mem_nat _ j (by omega))
    rw [hchosen, ← getD_map_pd env opts j hjlen]
    omega
  · intro l0 hl
    subst hl
    simp [least_damage_spawn_location, listMin, idxOfD]
  · intro env2 h1 h2 h3
    have he : env2 = env := by
      cases env2
      cases env
      simp_all
    rw [he]

/-- C5, witness: on the two-candidate list with the all-empty path oracle
the first candidate (13,0) is returned. -/
theorem claim5_least_damage_witness :
    least_damage_spawn_location envZero [(13,0), (14,0)] = some ((13,0) : Loc) := by
  have h := (claim5_least_damage envZero [(13,0), (14,0)] (by decide)).2.1
  rw [h]
  decide

end Citadel
